import Mathlib

/-!
Shallow embedding of the technoprise-blog-platform Go backend
(`backend/internal/handlers/blog.go`, `backend/internal/models/utils.go`,
and the models file with `Blog`, request structs, GORM hooks and
`ToResponse`).

Go strings are modelled as `List Char` (rune sequences); for the ASCII
inputs appearing in the claims this coincides with Go's byte-level
`len`/slicing.  Machine integers are modelled as `Int`/`Nat`: every
quantity involved is far from overflow in the scenarios the claims
quantify over, and the clamping logic keeps page/limit small.
-/

namespace TechnoBlog

/-- Go `unicode.IsControl`: the Unicode Cc category, i.e. U+0000..U+001F
and U+007F..U+009F. -/
def isGoControl (c : Char) : Bool :=
  c.toNat < 32 || (127 ≤ c.toNat && c.toNat ≤ 159)

/-- Go `unicode.IsSpace`: the White_Space property. -/
def isGoSpace (c : Char) : Bool :=
  c.toNat == 9 || c.toNat == 10 || c.toNat == 11 || c.toNat == 12 ||
  c.toNat == 13 || c.toNat == 32 || c.toNat == 0x85 || c.toNat == 0xA0 ||
  c.toNat == 0x1680 || (0x2000 ≤ c.toNat && c.toNat ≤ 0x200A) ||
  c.toNat == 0x2028 || c.toNat == 0x2029 || c.toNat == 0x202F ||
  c.toNat == 0x205F || c.toNat == 0x3000

/-- RE2 `\s` (used by Go's `regexp` package): `[\t\n\f\r ]`. -/
def isRE2Space (c : Char) : Bool :=
  c.toNat == 9 || c.toNat == 10 || c.toNat == 12 || c.toNat == 13 ||
  c.toNat == 32

/-- The character filter inside `SanitizeString`: keep `r` unless it is a
control character other than `\n`, `\t`, `\r`. -/
def keepChar (c : Char) : Bool :=
  !(isGoControl c && c.toNat != 10 && c.toNat != 9 && c.toNat != 13)

/-- Remove the maximal all-`p` suffix of a list (the right half of Go's
`strings.Trim` / `strings.TrimSpace`). -/
def dropTrailing (p : Char → Bool) : List Char → List Char
  | [] => []
  | c :: rest =>
    if (dropTrailing p rest).isEmpty then (if p c then [] else [c])
    else c :: dropTrailing p rest

/-- Go `strings.Trim(l, cutset)` for a one-predicate cutset, and
`strings.TrimSpace` when `p = isGoSpace`: drop the maximal `p`-prefix and
`p`-suffix. -/
def goTrim (p : Char → Bool) (l : List Char) : List Char :=
  dropTrailing p (l.dropWhile p)

/-- `models.SanitizeString`: drop control characters except `\n`, `\t`,
`\r`, then `strings.TrimSpace`. -/
def sanitizeString (l : List Char) : List Char :=
  goTrim isGoSpace (l.filter keepChar)

/-- Decimal digit value of a character, if it is `0`..`9`. -/
def digitVal (c : Char) : Option Nat :=
  if 48 ≤ c.toNat ∧ c.toNat ≤ 57 then some (c.toNat - 48) else none

/-- Value of a non-empty all-digit string. -/
def digitsVal : List Char → Option Nat
  | [] => none
  | [c] => digitVal c
  | c :: rest =>
    match digitVal c, digitsVal rest with
    | some d, some n => some (d * 10 ^ rest.length + n)
    | _, _ => none

/-- Go `strconv.Atoi`: optional sign followed by at least one digit.
`none` models the error case (in which `Atoi` also returns the value 0,
which the handler keeps because it discards the error); integer-overflow
clamping is not modelled, the claims never reach it. -/
def goAtoi (l : List Char) : Option Int :=
  match l with
  | '+' :: rest => (digitsVal rest).map Int.ofNat
  | '-' :: rest => (digitsVal rest).map (fun n => -(n : Int))
  | _ => (digitsVal l).map Int.ofNat

/-- Go `strconv.ParseBool`: accepts exactly these twelve strings. -/
def goParseBool (l : List Char) : Option Bool :=
  if l = "1".toList ∨ l = "t".toList ∨ l = "T".toList ∨
     l = "TRUE".toList ∨ l = "true".toList ∨ l = "True".toList then
    some true
  else if l = "0".toList ∨ l = "f".toList ∨ l = "F".toList ∨
          l = "FALSE".toList ∨ l = "false".toList ∨ l = "False".toList then
    some false
  else none

/-- Lowercase ASCII letters and digits: the character class the
`GenerateSlug` regex `[^a-z0-9]+` keeps. -/
def isLowerAlnum (c : Char) : Bool :=
  (97 ≤ c.toNat && c.toNat ≤ 122) || (48 ≤ c.toNat && c.toNat ≤ 57)

/-- Go `strings.ToLower`, per rune: Unicode simple lowercase mapping
restricted to ASCII (non-ASCII letters are replaced by hyphens by the
following regex step either way, so only the ASCII mapping is
observable in `GenerateSlug`). -/
def goToLower (c : Char) : Char :=
  if 65 ≤ c.toNat ∧ c.toNat ≤ 90 then Char.ofNat (c.toNat + 32) else c

/-- `regexp [^a-z0-9]+ → "-"`: every maximal run of characters outside
`[a-z0-9]` becomes a single `'-'`.  `prevHyphen` records that we are
inside such a run and its hyphen is already emitted. -/
def collapseAux (prevHyphen : Bool) : List Char → List Char
  | [] => []
  | c :: rest =>
    if isLowerAlnum c then c :: collapseAux false rest
    else if prevHyphen then collapseAux true rest
    else '-' :: collapseAux true rest

/-- `models.GenerateSlug`: lowercase, collapse non-alphanumeric runs to
single hyphens, trim hyphens, cut to 100 characters and trim again. -/
def generateSlug (title : List Char) : List Char :=
  let slug := title.map goToLower
  let slug := collapseAux false slug
  let slug := goTrim (fun c => c == '-') slug
  if 100 < slug.length then goTrim (fun c => c == '-') (slug.take 100)
  else slug

/-- `models.stripHTMLTags` (`regexp <[^>]*> → " "`) as a scanner.
`inTag` means we are inside a match; a `'<'` opens a match only when a
`'>'` occurs later (otherwise the regex cannot match from there), and
the match ends at the first `'>'`, exactly the `[^>]*` semantics. -/
def stripAux (inTag : Bool) : List Char → List Char
  | [] => []
  | c :: rest =>
    if inTag then
      if c == '>' then stripAux false rest else stripAux true rest
    else
      if c == '<' && rest.contains '>' then ' ' :: stripAux true rest
      else c :: stripAux false rest

/-- `models.stripHTMLTags`. -/
def stripHTMLTags (content : List Char) : List Char :=
  stripAux false content

/-- `regexp \s+ → " "` from `GenerateExcerpt`: every maximal run of RE2
whitespace becomes a single space. -/
def collapseSpacesAux (prevSpace : Bool) : List Char → List Char
  | [] => []
  | c :: rest =>
    if isRE2Space c then
      if prevSpace then collapseSpacesAux true rest
      else ' ' :: collapseSpacesAux true rest
    else c :: collapseSpacesAux false rest

/-- The cleaning pipeline inside `GenerateExcerpt`: strip HTML tags,
replace `\n` by spaces, collapse whitespace runs, trim. -/
def cleanText (content : List Char) : List Char :=
  let c := stripHTMLTags content
  let c := c.map (fun ch => if ch == '\n' then ' ' else ch)
  let c := collapseSpacesAux false c
  goTrim isGoSpace c

/-- Index of the last `' '` in a list (`strings.LastIndex(s, " ")`;
`none` models the -1 result). -/
def lastSpaceIdx : List Char → Option Nat
  | [] => none
  | c :: rest =>
    match lastSpaceIdx rest with
    | some i => some (i + 1)
    | none => if c == ' ' then some 0 else none

/-- `models.truncateText`: return `text` unchanged when it fits,
otherwise cut at `maxLength`, back up to the last space when one exists
at a positive index, and append `"..."`. -/
def truncateText (text : List Char) (maxLength : Nat) : List Char :=
  if text.length ≤ maxLength then text
  else
    let truncated := text.take maxLength
    let out :=
      match lastSpaceIdx truncated with
      | some i => if 0 < i then text.take i else truncated
      | none => truncated
    out ++ "...".toList

/-- `models.GenerateExcerpt`: clean the content and truncate it
(`maxLength = 0` falls back to 300). -/
def generateExcerpt (content : List Char) (maxLength : Nat) : List Char :=
  let m := if maxLength = 0 then 300 else maxLength
  truncateText (cleanText content) m

/-- `len(strings.Fields(l))`: number of maximal non-whitespace runs.
`inWord` records whether the previous character was part of a word. -/
def countFieldsAux (inWord : Bool) : List Char → Nat
  | [] => 0
  | c :: rest =>
    if isGoSpace c then countFieldsAux false rest
    else (if inWord then 0 else 1) + countFieldsAux true rest

/-- `models.CalculateReadingTime`: ceil(wordCount / 200), minimum 1,
and 0 for empty content. -/
def calculateReadingTime (content : List Char) : Nat :=
  if content.isEmpty then 0
  else
    let wordCount := countFieldsAux false (stripHTMLTags content)
    let readingTime := (wordCount + 199) / 200
    if readingTime < 1 then 1 else readingTime

/-- Go `strings.Split(l, ",")`: comma-separated pieces (empty pieces
kept, as in Go). -/
def splitComma : List Char → List (List Char)
  | [] => [[]]
  | c :: rest =>
    match splitComma rest with
    | [] => [[c]]
    | w :: ws => if c == ',' then [] :: w :: ws else (c :: w) :: ws

/-- The `models.Blog` GORM entity.  Timestamps are abstract ticks
(`Nat`); `publishedAt` is the nullable publish timestamp. -/
structure Blog where
  id : Nat
  title : List Char
  slug : List Char
  content : List Char
  excerpt : List Char
  author : List Char
  published : Bool
  featured : Bool
  tags : List Char
  metaTitle : List Char
  metaDesc : List Char
  readingTime : Nat
  viewCount : Nat
  createdAt : Nat
  updatedAt : Nat
  publishedAt : Option Nat
deriving Repr, DecidableEq

/-- The `models.BlogResponse` API shape. -/
structure BlogResponse where
  id : Nat
  title : List Char
  slug : List Char
  content : List Char
  excerpt : List Char
  author : List Char
  published : Bool
  featured : Bool
  tags : List (List Char)
  metaTitle : List Char
  metaDesc : List Char
  readingTime : Nat
  viewCount : Nat
  createdAt : Nat
  updatedAt : Nat
  publishedAt : Option Nat
deriving Repr, DecidableEq

/-- The `models.BlogListResponse` pagination envelope. -/
structure BlogListResponse where
  blogs : List BlogResponse
  total : Nat
  page : Nat
  limit : Nat
  totalPages : Nat
  hasNext : Bool
  hasPrev : Bool
deriving Repr, DecidableEq

/-- `models.CreateBlogRequest` (a JSON body already decoded by
`ShouldBindJSON`; Gin validates `binding:` tags only, and these structs
carry none, so every type-correct body reaches the handler). -/
structure CreateBlogRequest where
  title : List Char
  content : List Char
  excerpt : List Char
  author : List Char
  published : Bool
  featured : Bool
  tags : List Char
  metaTitle : List Char
  metaDesc : List Char
deriving Repr, DecidableEq

/-- `models.UpdateBlogRequest`: all fields are pointers, `none` models
a field absent from the JSON body. -/
structure UpdateBlogRequest where
  title : Option (List Char)
  content : Option (List Char)
  excerpt : Option (List Char)
  author : Option (List Char)
  published : Option Bool
  featured : Option Bool
  tags : Option (List Char)
  metaTitle : Option (List Char)
  metaDesc : Option (List Char)
deriving Repr, DecidableEq

/-- `Blog.ToResponse`: split-and-trim the comma-joined tags; include
content and the SEO meta fields only when `includeContent`. -/
def toResponse (b : Blog) (includeContent : Bool) : BlogResponse :=
  let tags :=
    if b.tags.isEmpty then []
    else (splitComma b.tags).map (goTrim isGoSpace)
  { id := b.id
    title := b.title
    slug := b.slug
    content := if includeContent then b.content else []
    excerpt := b.excerpt
    author := b.author
    published := b.published
    featured := b.featured
    tags := tags
    metaTitle := if includeContent then b.metaTitle else []
    metaDesc := if includeContent then b.metaDesc else []
    readingTime := b.readingTime
    viewCount := b.viewCount
    createdAt := b.createdAt
    updatedAt := b.updatedAt
    publishedAt := b.publishedAt }

/-- `Blog.BeforeCreate`: derive the slug when empty, recompute reading
time, stamp `publishedAt` when publishing for the first time.  (The
hook's three steps touch disjoint fields, so they are written as one
record update.) -/
def beforeCreate (now : Nat) (b : Blog) : Blog :=
  { b with
    slug := if b.slug.isEmpty then generateSlug b.title else b.slug
    readingTime := calculateReadingTime b.content
    publishedAt :=
      if b.published ∧ b.publishedAt = none then some now
      else b.publishedAt }

/-- `Blog.BeforeUpdate`, as the hook mutates the in-memory struct:
`scope.HasColumn("content")` asks whether the model has a `content`
column (always true for `Blog`), so it recomputes the reading time, and
it stamps/nulls `publishedAt` from the `Published` flag.  These are
direct struct assignments, not `scope.SetColumn` calls: on the
handler's map-based `Updates` path none of them enters the attrs map,
so none of them is persisted (see `updateBlog`). -/
def beforeUpdate (now : Nat) (b : Blog) : Blog :=
  { b with
    readingTime := calculateReadingTime b.content
    publishedAt :=
      if b.published ∧ b.publishedAt = none then some now
      else if ¬b.published then none
      else b.publishedAt }

/-- The `updates` map of `UpdateBlog` applied to the stored record: a
field enters the map (and hence changes) exactly when its request
pointer is non-nil; a supplied title also regenerates the slug. -/
def applyUpdates (b : Blog) (req : UpdateBlogRequest) : Blog :=
  { b with
    title := match req.title with | some t => sanitizeString t | none => b.title
    slug := match req.title with | some t => generateSlug t | none => b.slug
    content := match req.content with | some s => sanitizeString s | none => b.content
    excerpt := match req.excerpt with | some s => sanitizeString s | none => b.excerpt
    author := match req.author with | some s => sanitizeString s | none => b.author
    published := req.published.getD b.published
    featured := req.featured.getD b.featured
    tags := match req.tags with | some s => sanitizeString s | none => b.tags
    metaTitle := match req.metaTitle with | some s => sanitizeString s | none => b.metaTitle
    metaDesc := match req.metaDesc with | some s => sanitizeString s | none => b.metaDesc }

/-- `UpdateBlog` on a found record, as persisted: GORM v1
`Model(&blog).Updates(map)` assigns the map values to the struct, runs
`BeforeUpdate`, and then builds the UPDATE SQL from the attrs map only
— the map columns plus the `updated_at` gorm itself adds via
`SetColumn`.  The hook's direct struct assignments (`ReadingTime`,
`PublishedAt`, see `beforeUpdate`) are never added to that map, so the
stored row — which the handler then re-reads and returns — is exactly
the sanitized map columns plus `updated_at`. -/
def updateBlog (now : Nat) (stored : Blog) (req : UpdateBlogRequest) : Blog :=
  { applyUpdates stored req with updatedAt := now }

/-- `CreateBlog` handler body after a successful bind: slug from the
title with a `-<unix time>` suffix on collision, excerpt derived when
absent, all free-text fields sanitized, then the `BeforeCreate` hook. -/
def createBlog (now : Nat) (db : List Blog) (req : CreateBlogRequest) : Blog :=
  let slug0 := generateSlug req.title
  let slug :=
    if db.any (fun b => b.slug == slug0) then
      slug0 ++ '-' :: Nat.toDigits 10 now
    else slug0
  let excerpt :=
    if req.excerpt.isEmpty then generateExcerpt req.content 300 else req.excerpt
  beforeCreate now
    { id := 0
      title := sanitizeString req.title
      slug := slug
      content := sanitizeString req.content
      excerpt := sanitizeString excerpt
      author := sanitizeString req.author
      published := req.published
      featured := req.featured
      tags := sanitizeString req.tags
      metaTitle := sanitizeString req.metaTitle
      metaDesc := sanitizeString req.metaDesc
      readingTime := 0
      viewCount := 0
      createdAt := now
      updatedAt := now
      publishedAt := none }

/-- `GetBlogBySlug`: `First` with `slug = ? AND published = ?` against a
fixed snapshot; `none` models the 404 branch, a hit is rendered with
`ToResponse(true)` (the view-count increment is a separate best-effort
column update and does not change the rendered record). -/
def getBlogBySlug (db : List Blog) (slug : List Char) : Option BlogResponse :=
  match db.find? (fun b => b.slug == slug && b.published) with
  | none => none
  | some b => some (toResponse b true)

/-- Needle-is-a-leading-block test used by `containsSub`. -/
def leadsWith : List Char → List Char → Bool
  | [], _ => true
  | _ :: _, [] => false
  | a :: as, b :: bs => a == b && leadsWith as bs

/-- Substring containment (SQL `LIKE '%needle%'` with a literal
needle). -/
def containsSub (needle : List Char) : List Char → Bool
  | [] => needle.isEmpty
  | c :: rest => leadsWith needle (c :: rest) || containsSub needle rest

/-- One field of the search disjunction:
`LOWER(field) LIKE '%' + lower(search) + '%'`. -/
def fieldMatches (term field : List Char) : Bool :=
  containsSub term (field.map goToLower)

/-- The WHERE clause built by `GetBlogs`: a published filter when the
`published` parameter parsed, a featured filter when the `featured`
parameter was non-empty and parsed, and the four-field search
disjunction when `search` is non-empty. -/
def matchesQuery (pub feat : Option Bool) (search : List Char) (b : Blog) : Bool :=
  (match pub with | none => true | some v => b.published == v) &&
  (match feat with | none => true | some v => b.featured == v) &&
  (if search.isEmpty then true
   else
     let term := search.map goToLower
     fieldMatches term b.title || fieldMatches term b.content ||
     fieldMatches term b.excerpt || fieldMatches term b.tags)

/-- Insert into a list kept in descending `createdAt` order. -/
def insertDesc (b : Blog) : List Blog → List Blog
  | [] => [b]
  | x :: xs =>
    if x.createdAt ≤ b.createdAt then b :: x :: xs else x :: insertDesc b xs

/-- `ORDER BY created_at DESC`. -/
def sortByCreatedDesc (l : List Blog) : List Blog :=
  l.foldr insertDesc []

/-- Effective page: `Atoi` result (0 on error), clamped to 1 when
below 1. -/
def effPage (pageParam : Option (List Char)) : Nat :=
  if (goAtoi (pageParam.getD "1".toList)).getD 0 < 1 then 1
  else ((goAtoi (pageParam.getD "1".toList)).getD 0).toNat

/-- Effective limit: `Atoi` result (0 on error), reset to 10 when below
1 or above 100. -/
def effLimit (limitParam : Option (List Char)) : Nat :=
  if (goAtoi (limitParam.getD "10".toList)).getD 0 < 1 ∨
     100 < (goAtoi (limitParam.getD "10".toList)).getD 0 then 10
  else ((goAtoi (limitParam.getD "10".toList)).getD 0).toNat

/-- The core listing pipeline of `GetBlogs` once the filters are fixed:
count the matching rows, compute the pagination metadata
(`math.Ceil(total/limit)` equals `(total + limit - 1) / limit` for the
positive limits produced by clamping), fetch the ordered page, and
render each row without content. -/
def listBlogs (db : List Blog) (pub feat : Option Bool) (search : List Char)
    (page limit : Nat) : BlogListResponse :=
  let filtered := db.filter (matchesQuery pub feat search)
  let total := filtered.length
  let offset := (page - 1) * limit
  let totalPages := (total + limit - 1) / limit
  let items := ((sortByCreatedDesc filtered).drop offset).take limit
  { blogs := items.map (fun b => toResponse b false)
    total := total
    page := page
    limit := limit
    totalPages := totalPages
    hasNext := decide (page < totalPages)
    hasPrev := decide (1 < page) }

/-- `GetBlogs`: parse the raw query parameters exactly as the handler
does (`DefaultQuery` defaults, discarded `Atoi` errors, `ParseBool`
gating each filter) and run the listing pipeline.  `none` for
`pageParam`/`limitParam`/`publishedParam` models an absent parameter;
`search`/`featuredParam` are `c.Query` results (absent = empty). -/
def getBlogs (db : List Blog) (pageParam limitParam : Option (List Char))
    (search featuredParam : List Char) (publishedParam : Option (List Char)) :
    BlogListResponse :=
  let pub := goParseBool (publishedParam.getD "true".toList)
  let feat := if featuredParam.isEmpty then none else goParseBool featuredParam
  listBlogs db pub feat search (effPage pageParam) (effLimit limitParam)

/-! ### Fixtures for witnesses and counterexamples -/

/-- A published fixture post. -/
def exPub : Blog :=
  { id := 1, title := "Hello".toList, slug := "hello".toList
    content := "Body text here".toList, excerpt := "Body".toList
    author := "Ada".toList, published := true, featured := false
    tags := "go, web".toList, metaTitle := "Hello".toList
    metaDesc := "A post".toList, readingTime := 1, viewCount := 0
    createdAt := 5, updatedAt := 5, publishedAt := some 5 }

/-- An unpublished fixture post. -/
def exUnpub : Blog :=
  { exPub with id := 2, slug := "secret".toList, published := false
               publishedAt := none }

/-! ### Helper lemmas -/

lemma effLimit_pos (lp : Option (List Char)) : 1 ≤ effLimit lp := by
  unfold effLimit
  split
  · omega
  · omega

lemma effPage_of_lt (pp : Option (List Char))
    (h : (goAtoi (pp.getD "1".toList)).getD 0 < 1) : effPage pp = 1 := by
  unfold effPage
  rw [if_pos h]

lemma effPage_of_ge (pp : Option (List Char))
    (h : 1 ≤ (goAtoi (pp.getD "1".toList)).getD 0) :
    (effPage pp : Int) = (goAtoi (pp.getD "1".toList)).getD 0 := by
  unfold effPage
  rw [if_neg (not_lt.mpr h)]
  exact Int.toNat_of_nonneg (le_trans zero_le_one h)

lemma effLimit_of_out (lp : Option (List Char))
    (h : (goAtoi (lp.getD "10".toList)).getD 0 < 1 ∨
         100 < (goAtoi (lp.getD "10".toList)).getD 0) : effLimit lp = 10 := by
  unfold effLimit
  rw [if_pos h]

lemma effLimit_of_in (lp : Option (List Char))
    (h1 : 1 ≤ (goAtoi (lp.getD "10".toList)).getD 0)
    (h2 : (goAtoi (lp.getD "10".toList)).getD 0 ≤ 100) :
    (effLimit lp : Int) = (goAtoi (lp.getD "10".toList)).getD 0 := by
  unfold effLimit
  rw [if_neg (by omega)]
  exact Int.toNat_of_nonneg (le_trans zero_le_one h1)

/-- For a positive divisor, the integer formula `(t + l - 1) / l`
computes the rational ceiling of `t / l`. -/
lemma natCeilDiv_eq_ceil (t l : ℕ) (hl : 1 ≤ l) :
    (((t + l - 1) / l : ℕ) : ℤ) = ⌈(t : ℚ) / (l : ℚ)⌉ := by
  have hl0 : (0 : ℚ) < (l : ℚ) := by exact_mod_cast hl
  have hmod := Nat.div_add_mod (t + l - 1) l
  have hrlt : (t + l - 1) % l < l := Nat.mod_lt _ hl
  set K := (t + l - 1) / l with hK
  set r := (t + l - 1) % l with hr
  set P := l * K with hP
  have ht1 : t ≤ P := by omega
  have ht2 : P < t + l := by omega
  have hcast : ((P : ℕ) : ℚ) = (K : ℚ) * (l : ℚ) := by
    rw [hP]; push_cast; ring
  have hle : (K : ℚ) * (l : ℚ) < t + l := by
    rw [← hcast]; exact_mod_cast ht2
  have hge : (t : ℚ) ≤ (K : ℚ) * (l : ℚ) := by
    rw [← hcast]; exact_mod_cast ht1
  rw [eq_comm, Int.ceil_eq_iff]
  push_cast
  constructor
  · rw [lt_div_iff₀ hl0]
    linarith
  · rw [div_le_iff₀ hl0]
    linarith

/-! ### Claim theorems -/

/-- C1: in `GetBlogs`, a page parameter that is non-numeric (so `Atoi`
yields 0) or parses below 1 yields effective page 1, and a parsed page
at least 1 is kept; a limit that parses below 1 or above 100 (including
the non-numeric 0) is reset to 10 and is otherwise kept; the metadata
satisfies `totalPages = ceil(total / limit)`,
`hasNext = (page < totalPages)`, `hasPrev = (page > 1)`; and the
returned item count never exceeds the effective limit. -/
theorem c1_pagination (db : List Blog) (pp lp : Option (List Char))
    (search fp : List Char) (pub : Option (List Char)) :
    ((goAtoi (pp.getD "1".toList)).getD 0 < 1 →
      (getBlogs db pp lp search fp pub).page = 1) ∧
    (1 ≤ (goAtoi (pp.getD "1".toList)).getD 0 →
      ((getBlogs db pp lp search fp pub).page : Int) =
        (goAtoi (pp.getD "1".toList)).getD 0) ∧
    ((goAtoi (lp.getD "10".toList)).getD 0 < 1 ∨
        100 < (goAtoi (lp.getD "10".toList)).getD 0 →
      (getBlogs db pp lp search fp pub).limit = 10) ∧
    (1 ≤ (goAtoi (lp.getD "10".toList)).getD 0 →
      (goAtoi (lp.getD "10".toList)).getD 0 ≤ 100 →
      ((getBlogs db pp lp search fp pub).limit : Int) =
        (goAtoi (lp.getD "10".toList)).getD 0) ∧
    ((getBlogs db pp lp search fp pub).totalPages : ℤ) =
      ⌈((getBlogs db pp lp search fp pub).total : ℚ) /
        ((getBlogs db pp lp search fp pub).limit : ℚ)⌉ ∧
    (getBlogs db pp lp search fp pub).hasNext =
      decide ((getBlogs db pp lp search fp pub).page <
        (getBlogs db pp lp search fp pub).totalPages) ∧
    (getBlogs db pp lp search fp pub).hasPrev =
      decide (1 < (getBlogs db pp lp search fp pub).page) ∧
    (getBlogs db pp lp search fp pub).blogs.length ≤
      (getBlogs db pp lp search fp pub).limit := by
  simp only [getBlogs, listBlogs]
  refine ⟨fun h => effPage_of_lt pp h, fun h => effPage_of_ge pp h,
    fun h => effLimit_of_out lp h, fun h1 h2 => effLimit_of_in lp h1 h2,
    natCeilDiv_eq_ceil _ _ (effLimit_pos lp), by trivial, by trivial, ?_⟩
  rw [List.length_map]
  exact le_trans (List.length_take_le _ _) (le_refl _)

/-- C1 witness: page `"-3"` clamps to 1, limit `"200"` resets to 10, on
the empty snapshot. -/
theorem c1_pagination_witness :
    (getBlogs [] (some "-3".toList) (some "200".toList) [] [] none).page = 1 ∧
    (getBlogs [] (some "-3".toList) (some "200".toList) [] [] none).limit = 10 ∧
    ((getBlogs [exPub] (some "2".toList) (some "25".toList) [] [] none).limit : Int) = 25 := by
  refine ⟨(c1_pagination [] (some "-3".toList) (some "200".toList) [] [] none).1 (by decide),
    (c1_pagination [] (some "-3".toList) (some "200".toList) [] [] none).2.2.1 (by decide),
    (c1_pagination [exPub] (some "2".toList) (some "25".toList) [] [] none).2.2.2.1
      (by decide) (by decide)⟩

/-- C2 counterexample: with a single unpublished post in the snapshot,
the request with the unparsable `published=banana` returns it
(`total = 1`), while the same request with `published=true` does not
(`total = 0`) — so an unparsable value does not behave like `true`. -/
theorem c2_counterexample :
    (getBlogs [exUnpub] none none [] [] (some "banana".toList)).total = 1 ∧
    (getBlogs [exUnpub] none none [] [] (some "true".toList)).total = 0 ∧
    exUnpub.published = false := by
  refine ⟨by decide, by decide, by decide⟩

/-- C2 amended: an absent `published` parameter behaves exactly like an
explicit `published=true`; a parsable value is used as the filter; but a
present, unparsable value drops the published filter entirely, so the
listing then ignores the `Published` flag. -/
theorem c2_published_default (db : List Blog) (pp lp : Option (List Char))
    (search fp : List Char) :
    getBlogs db pp lp search fp none =
      getBlogs db pp lp search fp (some "true".toList) ∧
    (∀ s, goParseBool s = none →
      getBlogs db pp lp search fp (some s) =
        listBlogs db none (if fp.isEmpty then none else goParseBool fp)
          search (effPage pp) (effLimit lp)) ∧
    (∀ s v, goParseBool s = some v →
      getBlogs db pp lp search fp (some s) =
        listBlogs db (some v) (if fp.isEmpty then none else goParseBool fp)
          search (effPage pp) (effLimit lp)) := by
  refine ⟨rfl, fun s hs => ?_, fun s v hs => ?_⟩
  · simp only [getBlogs, Option.getD_some, hs]
  · simp only [getBlogs, Option.getD_some, hs]

/-- C2 witness: the unparsable `published=banana` request equals the
unfiltered pipeline, and `published=false` equals the `some false`
pipeline. -/
theorem c2_published_default_witness :
    getBlogs [exUnpub] none none [] [] (some "banana".toList) =
      listBlogs [exUnpub] none none [] (effPage none) (effLimit none) ∧
    getBlogs [exUnpub] none none [] [] (some "false".toList) =
      listBlogs [exUnpub] (some false) none [] (effPage none) (effLimit none) := by
  refine ⟨?_, ?_⟩
  · have h := (c2_published_default [exUnpub] none none [] []).2.1
      "banana".toList (by decide)
    simpa using h
  · have h := (c2_published_default [exUnpub] none none [] []).2.2
      "false".toList false (by decide)
    simpa using h

/-- C6: `GetBlogBySlug` returns 404 exactly when no stored post has the
requested slug with `Published = true`; on a hit the response is the
full detail view of a matching post, including content and the SEO
fields. -/
theorem c6_get_by_slug (db : List Blog) (slug : List Char) :
    (getBlogBySlug db slug = none ↔
      ∀ b ∈ db, ¬(b.slug = slug ∧ b.published = true)) ∧
    (∀ r, getBlogBySlug db slug = some r →
      ∃ b ∈ db, b.slug = slug ∧ b.published = true ∧ r = toResponse b true ∧
        r.content = b.content ∧ r.metaTitle = b.metaTitle ∧
        r.metaDesc = b.metaDesc) := by
  constructor
  · have hnone : getBlogBySlug db slug = none ↔
        db.find? (fun b => b.slug == slug && b.published) = none := by
      unfold getBlogBySlug
      cases db.find? (fun b => b.slug == slug && b.published) <;> simp
    rw [hnone, List.find?_eq_none]
    constructor
    · intro h b hb hc
      exact h b hb (by simp [hc.1, hc.2])
    · intro h b hb
      simp only [Bool.and_eq_true, beq_iff_eq]
      exact h b hb
  · intro r hr
    unfold getBlogBySlug at hr
    cases h : db.find? (fun b => b.slug == slug && b.published) with
    | none => rw [h] at hr; cases hr
    | some b =>
      rw [h] at hr
      have hb := List.find?_some h
      simp only [Bool.and_eq_true, beq_iff_eq] at hb
      have hmem := List.mem_of_find?_eq_some h
      cases hr
      exact ⟨b, hmem, hb.1, hb.2, rfl, rfl, rfl, rfl⟩

/-- C6 witness: the published fixture is found by its slug with full
content; the unpublished fixture makes the lookup return 404 even
though the slug exists. -/
theorem c6_get_by_slug_witness :
    getBlogBySlug [exUnpub] "secret".toList = none ∧
    (∃ b ∈ [exPub], b.slug = "hello".toList ∧ b.published = true ∧
      toResponse exPub true = toResponse b true ∧
      (toResponse exPub true).content = b.content ∧
      (toResponse exPub true).metaTitle = b.metaTitle ∧
      (toResponse exPub true).metaDesc = b.metaDesc) := by
  refine ⟨?_, ?_⟩
  · exact (c6_get_by_slug [exUnpub] "secret".toList).1.mpr (by decide)
  · exact (c6_get_by_slug [exPub] "hello".toList).2 (toResponse exPub true) rfl

/-- C9: the summary view (`ToResponse(false)`) always has empty
content, meta-title and meta-description; the detail view
(`ToResponse(true)`) carries the record's content and SEO fields; and
every item of a `GetBlogs` listing is a summary view. -/
theorem c9_summary_detail_views (b : Blog) (db : List Blog)
    (pp lp : Option (List Char)) (search fp : List Char)
    (pub : Option (List Char)) :
    (toResponse b false).content = [] ∧
    (toResponse b false).metaTitle = [] ∧
    (toResponse b false).metaDesc = [] ∧
    (toResponse b true).content = b.content ∧
    (toResponse b true).metaTitle = b.metaTitle ∧
    (toResponse b true).metaDesc = b.metaDesc ∧
    ((getBlogs db pp lp search fp pub).blogs.all
      (fun r => r.content.isEmpty && r.metaTitle.isEmpty && r.metaDesc.isEmpty))
      = true := by
  refine ⟨rfl, rfl, rfl, rfl, rfl, rfl, ?_⟩
  simp only [getBlogs, listBlogs, List.all_eq_true]
  intro r hr
  simp only [List.mem_map] at hr
  obtain ⟨x, -, rfl⟩ := hr
  rfl

/-! ### Trimming lemmas and C10 -/

/-- `true` when the optional character is absent or satisfies `p`. -/
def noneOr (p : Char → Bool) : Option Char → Bool
  | none => true
  | some c => p c

lemma dropTrailing_sublist (p : Char → Bool) :
    ∀ l, List.Sublist (dropTrailing p l) l
  | [] => by simp [dropTrailing]
  | c :: rest => by
    simp only [dropTrailing]
    split
    · split
      · exact List.nil_sublist _
      · exact List.Sublist.cons₂ c (List.nil_sublist rest)
    · exact List.Sublist.cons₂ c (dropTrailing_sublist p rest)

lemma dropTrailing_head (p : Char → Bool) (l : List Char) :
    dropTrailing p l = [] ∨ (dropTrailing p l).head? = l.head? := by
  cases l with
  | nil => exact Or.inl rfl
  | cons c rest =>
    simp only [dropTrailing]
    split
    · split
      · exact Or.inl rfl
      · exact Or.inr rfl
    · exact Or.inr rfl

lemma getLast?_cons_ne {c : Char} {r : List Char} (h : r ≠ []) :
    (c :: r).getLast? = r.getLast? := by
  cases r with
  | nil => exact absurd rfl h
  | cons x xs => simp

lemma dropTrailing_getLast_not (p : Char → Bool) :
    ∀ l, noneOr (fun c => !p c) (dropTrailing p l).getLast? = true
  | [] => rfl
  | c :: rest => by
    simp only [dropTrailing]
    split
    · split
      · rfl
      · next hp => simp [noneOr, hp]
    · next hne =>
      have hr : dropTrailing p rest ≠ [] := by
        intro h; rw [h] at hne; exact hne rfl
      rw [getLast?_cons_ne hr]
      exact dropTrailing_getLast_not p rest

lemma dropWhile_head_not (p : Char → Bool) :
    ∀ l : List Char, noneOr (fun c => !p c) (l.dropWhile p).head? = true
  | [] => rfl
  | c :: rest => by
    rw [List.dropWhile_cons]
    split
    · exact dropWhile_head_not p rest
    · next h => simp [noneOr, h]

lemma dropWhile_eq_self_of_head (p : Char → Bool) (l : List Char)
    (h : noneOr (fun c => !p c) l.head? = true) : l.dropWhile p = l := by
  cases l with
  | nil => rfl
  | cons c rest =>
    simp only [List.head?_cons, noneOr, Bool.not_eq_true'] at h
    rw [List.dropWhile_cons, if_neg (by simp [h])]

lemma dropTrailing_eq_self_of_last (p : Char → Bool) :
    ∀ l, noneOr (fun c => !p c) l.getLast? = true → dropTrailing p l = l
  | [], _ => rfl
  | c :: rest, h => by
    cases hr : rest with
    | nil =>
      subst hr
      simp only [List.getLast?_singleton, noneOr, Bool.not_eq_true'] at h
      simp [dropTrailing, h]
    | cons x xs =>
      subst hr
      have hlast : (x :: xs).getLast? = (c :: x :: xs).getLast? :=
        (getLast?_cons_ne (by simp)).symm
      have ih : dropTrailing p (x :: xs) = x :: xs :=
        dropTrailing_eq_self_of_last p (x :: xs) (by rw [hlast]; exact h)
      have hstep : dropTrailing p (c :: x :: xs) =
          if (dropTrailing p (x :: xs)).isEmpty then (if p c then [] else [c])
          else c :: dropTrailing p (x :: xs) := rfl
      rw [hstep, ih]
      simp

lemma sanitize_all_keep (s : List Char) :
    (sanitizeString s).all keepChar = true := by
  rw [List.all_eq_true]
  intro a ha
  simp only [sanitizeString, goTrim] at ha
  have h1 : a ∈ (s.filter keepChar).dropWhile isGoSpace :=
    (dropTrailing_sublist _ _).subset ha
  have h2 : a ∈ s.filter keepChar := (List.dropWhile_sublist _).subset h1
  exact (List.mem_filter.mp h2).2

lemma sanitize_head_not_space (s : List Char) :
    noneOr (fun c => !isGoSpace c) (sanitizeString s).head? = true := by
  have base := dropWhile_head_not isGoSpace (s.filter keepChar)
  rcases dropTrailing_head isGoSpace ((s.filter keepChar).dropWhile isGoSpace)
    with h | h
  · simp only [sanitizeString, goTrim, h]
    rfl
  · simp only [sanitizeString, goTrim, h]
    exact base

lemma sanitize_last_not_space (s : List Char) :
    noneOr (fun c => !isGoSpace c) (sanitizeString s).getLast? = true :=
  dropTrailing_getLast_not isGoSpace _

/-- C10: `SanitizeString` is idempotent, its output contains no control
character other than newline, tab or carriage return, and it has no
leading or trailing whitespace. -/
theorem c10_sanitize_idempotent (s : List Char) :
    sanitizeString (sanitizeString s) = sanitizeString s ∧
    (sanitizeString s).all keepChar = true ∧
    noneOr (fun c => !isGoSpace c) (sanitizeString s).head? = true ∧
    noneOr (fun c => !isGoSpace c) (sanitizeString s).getLast? = true := by
  have hall := sanitize_all_keep s
  have hhead := sanitize_head_not_space s
  have hlast := sanitize_last_not_space s
  refine ⟨?_, hall, hhead, hlast⟩
  have hfilter : (sanitizeString s).filter keepChar = sanitizeString s := by
    rw [List.filter_eq_self]
    exact fun a ha => List.all_eq_true.mp hall a ha
  have hdrop : (sanitizeString s).dropWhile isGoSpace = sanitizeString s :=
    dropWhile_eq_self_of_head _ _ hhead
  show goTrim isGoSpace ((sanitizeString s).filter keepChar) = sanitizeString s
  rw [hfilter]
  show dropTrailing isGoSpace ((sanitizeString s).dropWhile isGoSpace) =
    sanitizeString s
  rw [hdrop]
  exact dropTrailing_eq_self_of_last _ _ hlast

/-! ### Slug shape lemmas and C8 -/

/-- No two adjacent hyphens anywhere in the list. -/
def noAdjHyphen : List Char → Bool
  | a :: b :: rest => (!(a == '-' && b == '-')) && noAdjHyphen (b :: rest)
  | _ => true

lemma all_sublist {p : Char → Bool} {l1 l2 : List Char}
    (hs : List.Sublist l1 l2) (h : l2.all p = true) : l1.all p = true := by
  rw [List.all_eq_true] at h ⊢
  exact fun a ha => h a (hs.subset ha)

lemma hyphen_not_alnum : isLowerAlnum '-' = false := by decide

lemma alnum_head_not_hyphen {o : Option Char}
    (h : noneOr isLowerAlnum o = true) :
    noneOr (fun d => !(d == '-')) o = true := by
  cases o with
  | none => rfl
  | some d =>
    simp only [noneOr] at h ⊢
    cases hbe : d == '-'
    · rfl
    · have : d = '-' := by simpa using hbe
      subst this
      rw [hyphen_not_alnum] at h
      cases h

lemma collapseAux_all (b : Bool) :
    ∀ l, (collapseAux b l).all (fun c => isLowerAlnum c || c == '-') = true
  | [] => rfl
  | c :: rest => by
    simp only [collapseAux]
    split
    · next h => simp [h, collapseAux_all false rest]
    · split
      · exact collapseAux_all true rest
      · simp [collapseAux_all true rest]

lemma collapseAux_true_head :
    ∀ l, noneOr isLowerAlnum (collapseAux true l).head? = true
  | [] => rfl
  | c :: rest => by
    simp only [collapseAux]
    split
    · next h => simpa [noneOr] using h
    · exact collapseAux_true_head rest

lemma noAdj_cons (c : Char) (X : List Char)
    (hpair : c = '-' → noneOr (fun d => !(d == '-')) X.head? = true)
    (hX : noAdjHyphen X = true) : noAdjHyphen (c :: X) = true := by
  cases X with
  | nil => rfl
  | cons d rest =>
    simp only [noAdjHyphen, Bool.and_eq_true]
    refine ⟨?_, hX⟩
    by_cases hc : c = '-'
    · have := hpair hc
      simp only [List.head?_cons, noneOr] at this
      simp [this]
    · simp [hc]

lemma noAdj_collapseAux (b : Bool) :
    ∀ l, noAdjHyphen (collapseAux b l) = true
  | [] => rfl
  | c :: rest => by
    simp only [collapseAux]
    split
    · next h =>
      refine noAdj_cons c _ (fun hc => ?_) (noAdj_collapseAux false rest)
      subst hc
      rw [hyphen_not_alnum] at h
      cases h
    · split
      · exact noAdj_collapseAux true rest
      · exact noAdj_cons '-' _
          (fun _ => alnum_head_not_hyphen (collapseAux_true_head rest))
          (noAdj_collapseAux true rest)

lemma noAdj_tail {c : Char} {l : List Char}
    (h : noAdjHyphen (c :: l) = true) : noAdjHyphen l = true := by
  cases l with
  | nil => rfl
  | cons d rest =>
    simp only [noAdjHyphen, Bool.and_eq_true] at h
    exact h.2

lemma noAdj_head_pair {c : Char} {l : List Char}
    (h : noAdjHyphen (c :: l) = true) (hc : c = '-') :
    noneOr (fun d => !(d == '-')) l.head? = true := by
  cases l with
  | nil => rfl
  | cons d rest =>
    simp only [noAdjHyphen, Bool.and_eq_true] at h
    subst hc
    simpa [noneOr] using h.1

lemma noAdj_dropWhile (q : Char → Bool) :
    ∀ l, noAdjHyphen l = true → noAdjHyphen (l.dropWhile q) = true
  | [], h => h
  | c :: rest, h => by
    rw [List.dropWhile_cons]
    split
    · exact noAdj_dropWhile q rest (noAdj_tail h)
    · exact h

lemma noAdj_dropTrailing (q : Char → Bool) :
    ∀ l, noAdjHyphen l = true → noAdjHyphen (dropTrailing q l) = true
  | [], h => h
  | c :: rest, h => by
    have hstep : dropTrailing q (c :: rest) =
        if (dropTrailing q rest).isEmpty then (if q c then [] else [c])
        else c :: dropTrailing q rest := rfl
    rw [hstep]
    split
    · split
      · rfl
      · rfl
    · next hne =>
      have hr : dropTrailing q rest ≠ [] := by
        intro hnil; rw [hnil] at hne; exact hne rfl
      refine noAdj_cons c _ (fun hc => ?_)
        (noAdj_dropTrailing q rest (noAdj_tail h))
      rcases dropTrailing_head q rest with h0 | h0
      · exact absurd h0 hr
      · rw [h0]
        exact noAdj_head_pair h hc

lemma head?_take (n : Nat) (l : List Char) :
    (l.take n).head? = if n = 0 then none else l.head? := by
  cases n with
  | zero => rfl
  | succ m => cases l <;> rfl

lemma noAdj_take (n : Nat) :
    ∀ l, noAdjHyphen l = true → noAdjHyphen (l.take n) = true := by
  induction n with
  | zero => intro l _; rfl
  | succ m ih =>
    intro l h
    cases l with
    | nil => rfl
    | cons c rest =>
      rw [List.take_succ_cons]
      refine noAdj_cons c _ (fun hc => ?_) (ih rest (noAdj_tail h))
      rw [head?_take]
      split
      · rfl
      · exact noAdj_head_pair h hc

lemma goTrim_sublist (p : Char → Bool) (l : List Char) :
    List.Sublist (goTrim p l) l :=
  (dropTrailing_sublist p _).trans (List.dropWhile_sublist _)

lemma goTrim_head_not (p : Char → Bool) (l : List Char) :
    noneOr (fun c => !p c) (goTrim p l).head? = true := by
  rcases dropTrailing_head p (l.dropWhile p) with h | h
  · simp only [goTrim, h]; rfl
  · simp only [goTrim, h]; exact dropWhile_head_not p l

lemma goTrim_last_not (p : Char → Bool) (l : List Char) :
    noneOr (fun c => !p c) (goTrim p l).getLast? = true :=
  dropTrailing_getLast_not p _

lemma goTrim_noAdj (p : Char → Bool) (l : List Char)
    (h : noAdjHyphen l = true) : noAdjHyphen (goTrim p l) = true :=
  noAdj_dropTrailing p _ (noAdj_dropWhile p l h)

/-- C8: every generated slug uses only `[a-z0-9-]` (hence is
lowercase), never has two adjacent hyphens (non-alphanumeric runs are
collapsed to a single hyphen), has no leading or trailing hyphen, and
is at most 100 characters long; and the spec's round-trip example
holds. -/
theorem c8_generate_slug (title : List Char) :
    (generateSlug title).all (fun c => isLowerAlnum c || c == '-') = true ∧
    noAdjHyphen (generateSlug title) = true ∧
    noneOr (fun c => !(c == '-')) (generateSlug title).head? = true ∧
    noneOr (fun c => !(c == '-')) (generateSlug title).getLast? = true ∧
    (generateSlug title).length ≤ 100 ∧
    generateSlug "The Future of Web Accessibility!".toList =
      "the-future-of-web-accessibility".toList := by
  have hall0 := collapseAux_all false (title.map goToLower)
  have hadj0 := noAdj_collapseAux false (title.map goToLower)
  simp only [generateSlug]
  split
  · next hlen =>
    refine ⟨?_, ?_, ?_, ?_, ?_, by decide⟩
    · exact all_sublist
        ((goTrim_sublist _ _).trans ((List.take_sublist _ _).trans
          (goTrim_sublist _ _))) hall0
    · exact goTrim_noAdj _ _ (noAdj_take _ _ (goTrim_noAdj _ _ hadj0))
    · exact goTrim_head_not _ _
    · exact goTrim_last_not _ _
    · exact le_trans (goTrim_sublist _ _).length_le
        (le_trans (List.length_take_le _ _) (le_refl _))
  · next hlen =>
    refine ⟨?_, ?_, ?_, ?_, ?_, by decide⟩
    · exact all_sublist (goTrim_sublist _ _) hall0
    · exact goTrim_noAdj _ _ hadj0
    · exact goTrim_head_not _ _
    · exact goTrim_last_not _ _
    · omega

/-! ### Excerpt lemmas and C5 -/

lemma lastSpaceIdx_get :
    ∀ (l : List Char) (i : Nat), lastSpaceIdx l = some i → l.get? i = some ' '
  | [], i, h => by cases h
  | c :: rest, i, h => by
    simp only [lastSpaceIdx] at h
    cases hr : lastSpaceIdx rest with
    | some j =>
      rw [hr] at h
      injection h with h
      subst h
      exact lastSpaceIdx_get rest j hr
    | none =>
      rw [hr] at h
      by_cases hc : c == ' '
      · rw [if_pos hc] at h
        injection h with h
        subst h
        simpa using (by simpa using hc : c = ' ')
      · rw [if_neg hc] at h
        cases h

lemma lastSpaceIdx_none :
    ∀ (l : List Char), lastSpaceIdx l = none →
      ∀ j, l.get? j ≠ some ' '
  | [], _, j => by cases j <;> simp
  | c :: rest, h, j => by
    simp only [lastSpaceIdx] at h
    cases hr : lastSpaceIdx rest with
    | some i => rw [hr] at h; cases h
    | none =>
      rw [hr] at h
      by_cases hc : c == ' '
      · rw [if_pos hc] at h; cases h
      · cases j with
        | zero =>
          simp only [List.get?_cons_zero, ne_eq, Option.some.injEq]
          intro hceq
          exact hc (by simp [hceq])
        | succ m =>
          simpa using lastSpaceIdx_none rest hr m

lemma lastSpaceIdx_last :
    ∀ (l : List Char) (i j : Nat), lastSpaceIdx l = some i →
      l.get? j = some ' ' → j ≤ i
  | [], i, j, h, _ => by cases h
  | c :: rest, i, j, h, hj => by
    simp only [lastSpaceIdx] at h
    cases hr : lastSpaceIdx rest with
    | some k =>
      rw [hr] at h
      injection h with h
      subst h
      cases j with
      | zero => omega
      | succ m =>
        have := lastSpaceIdx_last rest k m hr (by simpa using hj)
        omega
    | none =>
      rw [hr] at h
      cases j with
      | zero => omega
      | succ m =>
        exact absurd (by simpa using hj) (lastSpaceIdx_none rest hr m)

lemma lastSpaceIdx_exists (l : List Char) (j : Nat)
    (hj : l.get? j = some ' ') : ∃ i, lastSpaceIdx l = some i := by
  cases h : lastSpaceIdx l with
  | none => exact absurd hj (lastSpaceIdx_none l h j)
  | some i => exact ⟨i, rfl⟩

lemma lastSpaceIdx_lt_length (l : List Char) (i : Nat)
    (h : lastSpaceIdx l = some i) : i < l.length := by
  by_contra hge
  have : l.get? i = none := List.get?_eq_none.mpr (by omega)
  rw [lastSpaceIdx_get l i h] at this
  cases this

/-- The truncation branch of `truncateText`, written out. -/
lemma truncateText_char (text : List Char) (m : Nat) (hm : m < text.length) :
    truncateText text m =
      (match lastSpaceIdx (text.take m) with
        | some i => if 0 < i then text.take i else text.take m
        | none => text.take m) ++ "...".toList := by
  simp only [truncateText, if_neg (by omega : ¬text.length ≤ m)]

/-- The word-boundary property claimed for `GenerateExcerpt`, modelled
from the spec's words: the excerpt is either the whole cleaned content,
or a prefix of it that stops at the end of the cleaned content or just
before a space, followed by the ellipsis. -/
def specExcerptWordBoundary (content : List Char) (maxLength : Nat) : Bool :=
  let cleaned := cleanText content
  let out := generateExcerpt content maxLength
  out == cleaned ||
  (List.range (cleaned.length + 1)).any (fun i =>
    out == cleaned.take i ++ "...".toList &&
    (i == cleaned.length || cleaned.get? i == some ' '))

/-- C5 counterexample: a single 25-character word truncated at
`maxLength = 20` is split mid-word — the text before the ellipsis stops
inside the word, at no word boundary of the cleaned content. -/
theorem c5_counterexample :
    specExcerptWordBoundary (List.replicate 25 'a') 20 = false ∧
    generateExcerpt (List.replicate 25 'a') 20 =
      List.replicate 20 'a' ++ "...".toList := by
  exact ⟨by decide, by decide⟩

/-- C5 amended: for positive `maxLength` the excerpt never exceeds
`maxLength` characters plus the three-character ellipsis; and whenever
truncation occurs and the first `maxLength` characters of the cleaned
content contain a space after position 0, the text before the ellipsis
ends at a word boundary (just before a space of the cleaned content).
When the truncated prefix contains no such space (a single long word),
the code cuts mid-word, which the counterexample exhibits. -/
theorem c5_excerpt_bounds (content : List Char) (maxLength : Nat)
    (hm : 0 < maxLength) :
    (generateExcerpt content maxLength).length ≤ maxLength + 3 ∧
    (maxLength < (cleanText content).length →
      (∃ j, 0 < j ∧ j < maxLength ∧ (cleanText content).get? j = some ' ') →
      ∃ i, 0 < i ∧ (cleanText content).get? i = some ' ' ∧
        generateExcerpt content maxLength =
          (cleanText content).take i ++ "...".toList) := by
  have hgen : generateExcerpt content maxLength =
      truncateText (cleanText content) maxLength := by
    simp only [generateExcerpt, if_neg (by omega : ¬maxLength = 0)]
  constructor
  · by_cases hlen : (cleanText content).length ≤ maxLength
    · rw [hgen]
      simp only [truncateText, if_pos hlen]
      omega
    · rw [hgen, truncateText_char _ _ (by omega)]
      rw [List.length_append]
      have hell : ("...".toList).length = 3 := by decide
      rw [hell]
      cases h : lastSpaceIdx ((cleanText content).take maxLength) with
      | some i =>
        have hi := lastSpaceIdx_lt_length _ _ h
        have htk : ((cleanText content).take maxLength).length ≤ maxLength :=
          List.length_take_le _ _
        by_cases h0 : 0 < i
        · simp only [if_pos h0]
          have := List.length_take_le i (cleanText content)
          omega
        · simp only [if_neg h0]
          omega
      | none =>
        have htk : ((cleanText content).take maxLength).length ≤ maxLength :=
          List.length_take_le _ _
        dsimp only
        omega
  · intro hlong hsp
    obtain ⟨j, hj0, hjm, hjsp⟩ := hsp
    have hjtake : ((cleanText content).take maxLength).get? j = some ' ' := by
      rw [List.get?_take hjm]
      exact hjsp
    obtain ⟨i, hi⟩ := lastSpaceIdx_exists _ j hjtake
    have hji : j ≤ i := lastSpaceIdx_last _ i j hi hjtake
    have hilt : i < ((cleanText content).take maxLength).length :=
      lastSpaceIdx_lt_length _ i hi
    have him : i < maxLength := by
      have := List.length_take_le maxLength (cleanText content)
      omega
    have hisp : (cleanText content).get? i = some ' ' := by
      have := lastSpaceIdx_get _ i hi
      rwa [List.get?_take him] at this
    refine ⟨i, by omega, hisp, ?_⟩
    rw [hgen, truncateText_char _ _ (by omega), hi]
    simp only [if_pos (by omega : 0 < i)]

/-- C5 witness: `"hello world abcdefghijkl"` at `maxLength = 20` is
truncated at the space after `"world"`. -/
theorem c5_excerpt_bounds_witness :
    (generateExcerpt "hello world abcdefghijkl".toList 20).length ≤ 20 + 3 ∧
    (∃ i, 0 < i ∧
      (cleanText "hello world abcdefghijkl".toList).get? i = some ' ' ∧
      generateExcerpt "hello world abcdefghijkl".toList 20 =
        (cleanText "hello world abcdefghijkl".toList).take i ++
          "...".toList) := by
  refine ⟨(c5_excerpt_bounds "hello world abcdefghijkl".toList 20
      (by decide)).1, ?_⟩
  exact (c5_excerpt_bounds "hello world abcdefghijkl".toList 20
      (by decide)).2 (by decide) ⟨5, by decide, by decide, by decide⟩

/-! ### C4: publish-timestamp invariant -/

/-- An update request that only sets `published = true`. -/
def setPublishedTrue : UpdateBlogRequest :=
  { title := none, content := none, excerpt := none, author := none
    published := some true, featured := none, tags := none
    metaTitle := none, metaDesc := none }

/-- An update request that only sets `published = false`. -/
def setPublishedFalse : UpdateBlogRequest :=
  { setPublishedTrue with published := some false }

/-- A valid create request publishing a post. -/
def pubCreateReq : CreateBlogRequest :=
  { title := "Hi there".toList, content := "Some body text here".toList
    excerpt := [], author := "Ada".toList, published := true
    featured := false, tags := [], metaTitle := [], metaDesc := [] }

/-- C4: the create path stamps `PublishedAt` correctly (the INSERT is
built from the struct after `BeforeCreate`), but on update the hook's
publish-timestamp writes are dropped by the map-based `Updates` path:
setting `published = true` on a stored record with null `published_at`
leaves it null in storage, and setting `published = false` on a
published record leaves its old timestamp in place — both contradicting
the claim.  The last conjunct shows the stamp the `BeforeUpdate` hook
computes on the in-memory struct, which never reaches storage. -/
theorem c4_update_drops_published_at :
    (createBlog 5 [] pubCreateReq).publishedAt = some 5 ∧
    (updateBlog 9 exUnpub setPublishedTrue).published = true ∧
    (updateBlog 9 exUnpub setPublishedTrue).publishedAt = none ∧
    (updateBlog 9 exPub setPublishedFalse).published = false ∧
    (updateBlog 9 exPub setPublishedFalse).publishedAt = some 5 ∧
    (beforeUpdate 9 (applyUpdates exUnpub setPublishedTrue)).publishedAt =
      some 9 := by
  exact ⟨by decide, by decide, by decide, by decide, by decide, by decide⟩

/-! ### C7: sparse-update frame -/

/-- An update request supplying an explicitly empty content and
`published = false`. -/
def contentEmptyUnpublishReq : UpdateBlogRequest :=
  { title := none, content := some [], excerpt := none, author := none
    published := some false, featured := none, tags := none
    metaTitle := none, metaDesc := none }

/-- C7 counterexample: updating `exPub` (stored reading time 1,
publish timestamp 5) with an explicitly empty content and
`published = false` stores the empty content but keeps reading time 1
— not the recomputed `calculateReadingTime [] = 0` the claim's
"recomputed when content is supplied" requires — and keeps
`publishedAt = some 5` instead of following the published flag:
`reading_time` and `published_at` are never in the `Updates` map, and
the `BeforeUpdate` hook's direct struct assignments are dropped by
GORM v1's map-based update. -/
theorem c7_counterexample :
    (updateBlog 9 exPub contentEmptyUnpublishReq).content = [] ∧
    (updateBlog 9 exPub contentEmptyUnpublishReq).readingTime = 1 ∧
    calculateReadingTime [] = 0 ∧
    (updateBlog 9 exPub contentEmptyUnpublishReq).published = false ∧
    (updateBlog 9 exPub contentEmptyUnpublishReq).publishedAt = some 5 := by
  exact ⟨by decide, by decide, by decide, by decide, by decide⟩

/-- C7 amended: in `UpdateBlog`, every field absent from the request
keeps its stored value, and a supplied field is set to its sanitized
value — so an explicit empty string yields an empty stored field,
unlike an absent field; the slug is regenerated exactly when a title is
supplied, and the update timestamp is set.  Unlike the original claim's
parenthetical, the derived reading time and publish timestamp are NOT
recomputed on update: they keep their stored values even when content
or the published flag is supplied, because the `BeforeUpdate` hook's
direct struct assignments never enter the map-based UPDATE. -/
theorem c7_partial_update (now : Nat) (stored : Blog)
    (req : UpdateBlogRequest) :
    (req.title = none → (updateBlog now stored req).title = stored.title) ∧
    (∀ s, req.title = some s →
      (updateBlog now stored req).title = sanitizeString s) ∧
    (req.title = none → (updateBlog now stored req).slug = stored.slug) ∧
    (∀ s, req.title = some s →
      (updateBlog now stored req).slug = generateSlug s) ∧
    (req.content = none →
      (updateBlog now stored req).content = stored.content) ∧
    (∀ s, req.content = some s →
      (updateBlog now stored req).content = sanitizeString s) ∧
    (req.excerpt = none →
      (updateBlog now stored req).excerpt = stored.excerpt) ∧
    (∀ s, req.excerpt = some s →
      (updateBlog now stored req).excerpt = sanitizeString s) ∧
    (req.excerpt = some [] → (updateBlog now stored req).excerpt = []) ∧
    (req.author = none →
      (updateBlog now stored req).author = stored.author) ∧
    (∀ s, req.author = some s →
      (updateBlog now stored req).author = sanitizeString s) ∧
    (req.tags = none → (updateBlog now stored req).tags = stored.tags) ∧
    (∀ s, req.tags = some s →
      (updateBlog now stored req).tags = sanitizeString s) ∧
    (req.tags = some [] → (updateBlog now stored req).tags = []) ∧
    (req.metaTitle = none →
      (updateBlog now stored req).metaTitle = stored.metaTitle) ∧
    (∀ s, req.metaTitle = some s →
      (updateBlog now stored req).metaTitle = sanitizeString s) ∧
    (req.metaDesc = none →
      (updateBlog now stored req).metaDesc = stored.metaDesc) ∧
    (∀ s, req.metaDesc = some s →
      (updateBlog now stored req).metaDesc = sanitizeString s) ∧
    (req.published = none →
      (updateBlog now stored req).published = stored.published) ∧
    (∀ v, req.published = some v →
      (updateBlog now stored req).published = v) ∧
    (req.featured = none →
      (updateBlog now stored req).featured = stored.featured) ∧
    (∀ v, req.featured = some v →
      (updateBlog now stored req).featured = v) ∧
    (updateBlog now stored req).readingTime = stored.readingTime ∧
    (updateBlog now stored req).publishedAt = stored.publishedAt ∧
    (updateBlog now stored req).updatedAt = now := by
  refine ⟨fun h => by simp [updateBlog, applyUpdates, h],
    fun s h => by simp [updateBlog, applyUpdates, h],
    fun h => by simp [updateBlog, applyUpdates, h],
    fun s h => by simp [updateBlog, applyUpdates, h],
    fun h => by simp [updateBlog, applyUpdates, h],
    fun s h => by simp [updateBlog, applyUpdates, h],
    fun h => by simp [updateBlog, applyUpdates, h],
    fun s h => by simp [updateBlog, applyUpdates, h],
    fun h => by simp [updateBlog, applyUpdates, h, sanitizeString, goTrim, dropTrailing],
    fun h => by simp [updateBlog, applyUpdates, h],
    fun s h => by simp [updateBlog, applyUpdates, h],
    fun h => by simp [updateBlog, applyUpdates, h],
    fun s h => by simp [updateBlog, applyUpdates, h],
    fun h => by simp [updateBlog, applyUpdates, h, sanitizeString, goTrim, dropTrailing],
    fun h => by simp [updateBlog, applyUpdates, h],
    fun s h => by simp [updateBlog, applyUpdates, h],
    fun h => by simp [updateBlog, applyUpdates, h],
    fun s h => by simp [updateBlog, applyUpdates, h],
    fun h => by simp [updateBlog, applyUpdates, h],
    fun v h => by simp [updateBlog, applyUpdates, h],
    fun h => by simp [updateBlog, applyUpdates, h],
    fun v h => by simp [updateBlog, applyUpdates, h],
    by simp [updateBlog, applyUpdates],
    by simp [updateBlog, applyUpdates],
    by simp [updateBlog, applyUpdates]⟩

/-- C7 witness: an update of `exPub` supplying only an empty excerpt
leaves the title unchanged, empties the excerpt (unlike an absent
excerpt), and keeps the stored reading time. -/
theorem c7_partial_update_witness :
    (updateBlog 9 exPub
      { title := none, content := none, excerpt := some [], author := none
        published := none, featured := none, tags := none
        metaTitle := none, metaDesc := none }).title = exPub.title ∧
    (updateBlog 9 exPub
      { title := none, content := none, excerpt := some [], author := none
        published := none, featured := none, tags := none
        metaTitle := none, metaDesc := none }).excerpt = [] ∧
    (updateBlog 9 exPub
      { title := none, content := none, excerpt := some [], author := none
        published := none, featured := none, tags := none
        metaTitle := none, metaDesc := none }).readingTime =
      exPub.readingTime := by
  obtain ⟨h1, -, -, -, -, -, -, -, h9, -, -, -, -, -, -, -, -, -, -, -, -,
      -, h23, -, -⟩ :=
    c7_partial_update 9 exPub
      { title := none, content := none, excerpt := some [], author := none
        published := none, featured := none, tags := none
        metaTitle := none, metaDesc := none }
  exact ⟨h1 rfl, h9 rfl, h23⟩

/-! ### C3: create-time validation -/

/-- Modelled from the spec: the field-length validation `CreatePost` is
claimed to perform (the `validate:` struct tags — title 1–255, content
at least 10, author 1–100, excerpt at most 500, meta-title at most 60,
meta-description at most 160).  Gin's `ShouldBindJSON` enforces
`binding:` tags only and no validator is invoked anywhere in the
repository, so this check never runs. -/
def validCreateBlogRequest (req : CreateBlogRequest) : Bool :=
  (1 ≤ req.title.length && req.title.length ≤ 255) &&
  (10 ≤ req.content.length) &&
  (1 ≤ req.author.length && req.author.length ≤ 100) &&
  (req.excerpt.length ≤ 500) &&
  (req.metaTitle.length ≤ 60) &&
  (req.metaDesc.length ≤ 160)

/-- A request violating every required-field constraint: empty title,
five-character content, empty author. -/
def badCreateReq : CreateBlogRequest :=
  { title := [], content := "short".toList, excerpt := [], author := []
    published := false, featured := false, tags := [], metaTitle := []
    metaDesc := [] }

/-- C3: the handler persists a request that violates the claimed
length constraints — `CreateBlog` has no validation branch after the
JSON bind (the structs carry `validate:` tags that Gin never checks),
so the invalid record reaches storage with its empty title, too-short
content and empty author intact. -/
theorem c3_validation_not_enforced :
    validCreateBlogRequest badCreateReq = false ∧
    (createBlog 0 [] badCreateReq).title = [] ∧
    (createBlog 0 [] badCreateReq).content.length < 10 ∧
    (createBlog 0 [] badCreateReq).author = [] := by
  exact ⟨by decide, by decide, by decide, by decide⟩

end TechnoBlog
